import Mathlib

/-!
Shallow embedding of the workspace-synchronization core of the `fersk` CLI
(sources: `src/main.rs`, `src/git.rs`, `src/command.rs`).

External processes are modelled by an oracle (`Env`) mapping each issued
command line (working directory + argument vector) to the process outcome and
its captured standard output.  Every operation records the externally visible
events it performs (engine invocations, filesystem operations, writes to the
process's own standard output) in a trace, so that ordering and output claims
can be stated over the trace.

Parts of the repository that `src/main.rs` calls but whose definitions are not
present in the snapshot (`util::pid::PidLock`, `Git::force_remote_url`,
`Git::get_remote_url`) are modelled from the spec; each such definition is
marked `Modelled from the spec:` in its doc comment.
-/

/-- Outcome of launching one external process, as seen by Rust's
`Command::status()` / `Command::output()`: either the process could not be
launched at all, or it terminated with `ExitStatus` whose `code()` is
`Some(n)` on normal exit and `None` when terminated by a signal. -/
inductive ProcResult where
  | launchFailure : ProcResult
  | exited : Option Int → ProcResult
deriving DecidableEq, Repr

/-- Rust's `ExitStatus::success()`: true exactly when the exit code is 0
(a signalled process has `code() = None` and is not a success). -/
def statusSuccess (code : Option Int) : Bool :=
  code == some 0

/-- The error enum `GitError` of `src/git.rs`: `Execute` when git could not be
launched, `Unknown(Option<i32>)` when git ran and exited unsuccessfully
(the carried code is `None` when the process was signalled). -/
inductive GitError where
  | Execute : GitError
  | Unknown : Option Int → GitError
deriving DecidableEq, Repr

/-- The revision sum type `GitRev` of `src/git.rs`. -/
inductive GitRev where
  | Branch : String → GitRev
  | Commit : String → GitRev
deriving DecidableEq, Repr

/-- The `AsRef<str>` impl of `GitRev`: both variants expose their payload. -/
def GitRev.asRef : GitRev → String
  | .Branch v => v
  | .Commit v => v

/-- The `Display` impl of `GitRev`: both variants print their payload. -/
def GitRev.display : GitRev → String
  | .Branch v => v
  | .Commit v => v

/-- The `Git` adapter struct of `src/git.rs` (field `silent`: null out the
engine's stdout). -/
structure Git where
  silent : Bool
deriving DecidableEq, Repr

/-- Behaviour of the external git engine: a command line (optional working
directory plus argument vector) is mapped to its process outcome and the bytes
it wrote to its captured standard output. -/
def Env : Type :=
  Option String → List String → ProcResult × String

/-- Rust's `str::trim_end` (trailing whitespace removed), used on git's output
in `src/git.rs`. -/
def rustTrimEnd (s : String) : String :=
  String.mk (List.reverse (List.dropWhile Char.isWhitespace s.data.reverse))

/-- Externally visible events of one invocation, in order of occurrence. -/
inductive Event where
  /-- an engine invocation through `Git::exec` (cwd, args, stdout-nulled flag,
  which in the source is `Git.silent`). -/
  | git : Option String → List String → Bool → Event
  /-- an engine invocation through `Git::exec_output` (stdout is always piped
  and captured, never shown). -/
  | gitOut : Option String → List String → Event
  /-- the (spec-modelled) force-set-remote-URL operation: dir, name, url. -/
  | forceRemoteUrl : String → String → String → Event
  /-- the (spec-modelled) get-remote-URL operation: dir, name. -/
  | getRemoteUrl : String → String → Event
  /-- `std::fs::create_dir_all` on the given directory. -/
  | mkdir : String → Event
  /-- the user's command: cwd, argv, stdout-nulled flag. -/
  | userCmd : String → List String → Bool → Event
  /-- one human-readable `println!` line on this process's stdout. -/
  | stdoutLine : String → Event
  /-- the serialized `JsonOutput` record on this process's stdout; its three
  fields are exactly `source_repository_path`, `working_repository_path`,
  `branch` (`src/main.rs`, struct `JsonOutput`). -/
  | stdoutJson : String → String → String → Event
deriving DecidableEq, Repr

/-- Classification done by `Git::exec` (`src/git.rs`): launch failure becomes
`GitError::Execute`; a run with `!status.success()` becomes
`GitError::Unknown(status.code())`; a zero-exit run is `Ok(())`. -/
def Git.execStatus : ProcResult → Except GitError Unit
  | .launchFailure => .error .Execute
  | .exited code => if statusSuccess code then .ok () else .error (.Unknown code)

/-- Classification done by `Git::exec_output` (`src/git.rs`): identical to
`Git::exec` but a zero-exit run yields the captured output. -/
def Git.execOutputStatus : ProcResult → String → Except GitError String
  | .launchFailure, _ => .error .Execute
  | .exited code, out => if statusSuccess code then .ok out else .error (.Unknown code)

/-- The `Git::exec` helper: run `git <args>` in `cwd`; stdout is nulled iff
`silent`.  Returns the classified result and the event performed. -/
def Git.exec (g : Git) (env : Env) (cwd : Option String) (args : List String) :
    Except GitError Unit × List Event :=
  (Git.execStatus (env cwd args).1, [Event.git cwd args g.silent])

/-- The `Git::exec_output` helper: run `git <args>` capturing stdout. -/
def Git.execOutput (env : Env) (cwd : Option String) (args : List String) :
    Except GitError String × List Event :=
  (Git.execOutputStatus (env cwd args).1 (env cwd args).2, [Event.gitOut cwd args])

/-- The `Git::cleanse` operation (`src/git.rs`): `git reset --hard`, then —
only if the reset succeeded — `git clean -fdx`. -/
def Git.cleanse (g : Git) (env : Env) (path : String) : Except GitError Unit × List Event :=
  let r1 := g.exec env (some path) ["reset", "--hard"]
  match r1.1 with
  | .error err => (.error err, r1.2)
  | .ok _ =>
    let r2 := g.exec env (some path) ["clean", "-fdx"]
    (r2.1, r1.2 ++ r2.2)

/-- The `Git::checkout` operation (`src/git.rs`): `git checkout <rev>`. -/
def Git.checkout (g : Git) (env : Env) (path rev : String) : Except GitError Unit × List Event :=
  g.exec env (some path) ["checkout", rev]

/-- The `Git::clone` operation exactly as written in `src/git.rs`: it takes
only a source and a destination and runs `git clone <source> <destination>`
with no working directory and no `--origin` option, so the clone's sole remote
gets git's default name "origin". -/
def Git.clone (g : Git) (env : Env) (source destination : String) :
    Except GitError Unit × List Event :=
  g.exec env none ["clone", source, destination]

/-- The `Git::fetch` operation (`src/git.rs`): `git fetch <remote>` in `path`. -/
def Git.fetch (g : Git) (env : Env) (path remoteName : String) :
    Except GitError Unit × List Event :=
  g.exec env (some path) ["fetch", remoteName]

/-- The `Git::get_current_head` operation (`src/git.rs`): run
`git rev-parse --abbrev-ref HEAD`; if the trimmed output is not the literal
string "HEAD", HEAD is on a named branch and that name is returned as
`Branch`; otherwise HEAD is detached and `git rev-parse HEAD` yields the
commit id, returned as `Commit`. -/
def Git.getCurrentHead (_g : Git) (env : Env) (path : String) :
    Except GitError GitRev × List Event :=
  let r1 := Git.execOutput env (some path) ["rev-parse", "--abbrev-ref", "HEAD"]
  match r1.1 with
  | .error err => (.error err, r1.2)
  | .ok out =>
    if rustTrimEnd out ≠ "HEAD" then (.ok (GitRev.Branch (rustTrimEnd out)), r1.2)
    else
      let r2 := Git.execOutput env (some path) ["rev-parse", "HEAD"]
      match r2.1 with
      | .error err => (.error err, r1.2 ++ r2.2)
      | .ok out2 => (.ok (GitRev.Commit (rustTrimEnd out2)), r1.2 ++ r2.2)

/-- Association-list lookup of a remote's configured URL by name. -/
def lookupRemote : List (String × String) → String → Option String
  | [], _ => none
  | (n, u) :: rest, name => if n = name then some u else lookupRemote rest name

/-- Overwrite-or-append update of a remote's URL: if an entry with this name
exists its URL is replaced (no duplicate entry is created), otherwise the
remote is added. -/
def setRemote : List (String × String) → String → String → List (String × String)
  | [], name, url => [(name, url)]
  | (n, u) :: rest, name, url =>
    if n = name then (name, url) :: rest else (n, u) :: setRemote rest name url

/-- Modelled from the spec: `Git::force_remote_url` is called by `src/main.rs`
but its definition is not in the snapshot's `src/git.rs`.  Per §4.2 it
"idempotently ensures the named remote exists and points at the given URL,
overwriting any prior value" and "must not fail merely because the remote
already existed with a different URL"; the engine may still fail for external
reasons, modelled by the `ok` oracle.  On failure the remote table is
unchanged. -/
def forceRemoteUrl (ok : Bool) (remotes : List (String × String)) (name url : String) :
    Except GitError Unit × List (String × String) :=
  if ok then (.ok (), setRemote remotes name url)
  else (.error (.Unknown (some 1)), remotes)

/-- Modelled from the spec: `Git::get_remote_url` is called by `src/main.rs`
but its definition is not in the snapshot's `src/git.rs`.  Per §4.2 it
"returns the URL currently configured for that remote" and "fails if remote
undefined". -/
def getRemoteUrl (remotes : List (String × String)) (name : String) :
    Except GitError String :=
  match lookupRemote remotes name with
  | some url => .ok url
  | none => .error (.Unknown (some 2))

/-- Modelled from the spec: `PidLock::acquire` (`src/util/pid.rs` is not part
of the snapshot).  Per §4.3: the lock file records the owning process; "if the
file is absent or references a process that is no longer alive, acquisition
succeeds (stale-lock reclamation); if the file references a live process,
acquisition fails".  The state is the recorded owner pid (`none` = file
absent); acquisition is atomic create-or-fail at the filesystem level, so
successive attempts see each other's writes. -/
def PidLock.acquire (alive : Nat → Bool) (st : Option Nat) (pid : Nat) :
    Bool × Option Nat :=
  match st with
  | none => (true, some pid)
  | some p => if alive p then (false, st) else (true, some pid)

/-- The reserved tracking-remote name, constant `FERSK_ORIGIN` of
`src/main.rs`. -/
def FERSK_ORIGIN : String := "fersk-origin"

/-- Inputs of the `run` subcommand (`src/main.rs`, enum `Command::Run`). -/
structure RunArgs where
  branch : Option String
  commit : Option String
  copyRemote : Option String
  args : List String
  jsonOut : Bool

/-- The pieces of the outside world one invocation interacts with: the git
engine's behaviour, whether the PID lock can be acquired, whether the
workspace directory exists, whether `create_dir_all` succeeds, the source
repository's configured remotes, the workspace's current remotes, the result
oracle for the (spec-modelled) force-set-remote operation, and whether the
user's command succeeds. -/
structure World where
  env : Env
  lockOk : Bool
  wsExists : Bool
  mkdirOk : Bool
  sourceRemotes : List (String × String)
  wsRemotes : List (String × String)
  forceOk : String → String → Bool
  userCmdOk : Bool

/-- The failure stages of the `run` subcommand, one per `with_context` site of
`src/main.rs` (plus the user command's own failure). -/
inductive RunErr where
  | noCommand : RunErr
  | lockContended : RunErr
  | headFailed : RunErr
  | setFerskRemoteFailed : RunErr
  | fetchFailed : RunErr
  | mkdirFailed : RunErr
  | cloneFailed : RunErr
  | getCopyRemoteFailed : RunErr
  | setCopyRemoteFailed : RunErr
  | cleanseFailed : RunErr
  | checkoutFailed : RunErr
  | commandFailed : RunErr
deriving DecidableEq, Repr

/-- Result of one invocation: overall result, event trace, the effective
revision as resolved (before remote qualification), the ref last checked out
(if checkout was reached and succeeded), the workspace's final remote table,
and whether the workspace directory exists afterwards. -/
structure RunOut where
  result : Except RunErr Unit
  trace : List Event
  resolvedRev : Option GitRev
  checkedOut : Option String
  wsRemotes : List (String × String)
  wsExists : Bool

/-- Revision resolution of `src/main.rs` lines 106-114: an explicit branch
wins, else an explicit commit, else the source repository's current head. -/
def resolveStep (a : RunArgs) (g : Git) (env : Env) (root : String) :
    Except GitError GitRev × List Event :=
  match a.branch with
  | some b => (.ok (GitRev.Branch b), [])
  | none =>
    match a.commit with
    | some c => (.ok (GitRev.Commit c), [])
    | none => Git.getCurrentHead g env root

/-- Remote qualification of `src/main.rs` lines 124-128: a branch is prefixed
with the reserved remote name; a commit is passed through unchanged. -/
def qualifyRev : GitRev → GitRev
  | .Branch b => .Branch (FERSK_ORIGIN ++ "/" ++ b)
  | v => v

/-- Result of the clone-or-fetch step. -/
structure SyncOut where
  result : Except RunErr Unit
  events : List Event
  remotes : List (String × String)
  wsExists : Bool

/-- The clone-or-fetch step of `src/main.rs` lines 130-142.  The decision is
taken solely on `work_path.exists()`.  Existing workspace: force-set the
reserved remote to the source root, then fetch it.  Absent workspace:
`create_dir_all`, then `Git::clone` — which, as defined in `src/git.rs`, runs
`git clone <src> <dst>` with no `--origin` option, so the fresh clone's remote
table is git's default, a single remote named "origin" pointing at the
source. -/
def syncStep (g : Git) (w : World) (root work : String) : SyncOut :=
  if w.wsExists then
    match (forceRemoteUrl (w.forceOk FERSK_ORIGIN root) w.wsRemotes FERSK_ORIGIN root).1 with
    | .error _ =>
      ⟨.error .setFerskRemoteFailed, [Event.forceRemoteUrl work FERSK_ORIGIN root],
       (forceRemoteUrl (w.forceOk FERSK_ORIGIN root) w.wsRemotes FERSK_ORIGIN root).2, true⟩
    | .ok _ =>
      match (g.fetch w.env work FERSK_ORIGIN).1 with
      | .error _ =>
        ⟨.error .fetchFailed,
         Event.forceRemoteUrl work FERSK_ORIGIN root :: (g.fetch w.env work FERSK_ORIGIN).2,
         (forceRemoteUrl (w.forceOk FERSK_ORIGIN root) w.wsRemotes FERSK_ORIGIN root).2, true⟩
      | .ok _ =>
        ⟨.ok (),
         Event.forceRemoteUrl work FERSK_ORIGIN root :: (g.fetch w.env work FERSK_ORIGIN).2,
         (forceRemoteUrl (w.forceOk FERSK_ORIGIN root) w.wsRemotes FERSK_ORIGIN root).2, true⟩
  else
    if w.mkdirOk then
      match (g.clone w.env root work).1 with
      | .error _ =>
        ⟨.error .cloneFailed, Event.mkdir work :: (g.clone w.env root work).2,
         w.wsRemotes, true⟩
      | .ok _ =>
        ⟨.ok (), Event.mkdir work :: (g.clone w.env root work).2, [("origin", root)], true⟩
    else
      ⟨.error .mkdirFailed, [Event.mkdir work], w.wsRemotes, false⟩

/-- The copy-remote step of `src/main.rs` lines 144-151: when a copy-remote
name is supplied, read its URL from the source repository and force-set an
identically named remote in the workspace to that URL.  The name is not
validated against the reserved remote name. -/
def copyStep (w : World) (copyRemote : Option String)
    (remotes : List (String × String)) (root work : String) :
    Except RunErr Unit × List Event × List (String × String) :=
  match copyRemote with
  | none => (.ok (), [], remotes)
  | some r =>
    match getRemoteUrl w.sourceRemotes r with
    | .error _ => (.error .getCopyRemoteFailed, [Event.getRemoteUrl root r], remotes)
    | .ok url =>
      match (forceRemoteUrl (w.forceOk r url) remotes r url).1 with
      | .error _ =>
        (.error .setCopyRemoteFailed,
         [Event.getRemoteUrl root r, Event.forceRemoteUrl work r url],
         (forceRemoteUrl (w.forceOk r url) remotes r url).2)
      | .ok _ =>
        (.ok (), [Event.getRemoteUrl root r, Event.forceRemoteUrl work r url],
         (forceRemoteUrl (w.forceOk r url) remotes r url).2)

/-- The three human-readable progress lines of `src/main.rs` lines 118-122,
printed only when `json_out` is off; the branch line shows the revision
before remote qualification. -/
def printlnEvents (a : RunArgs) (root work : String) (rev : GitRev) : List Event :=
  if a.jsonOut then []
  else
    [Event.stdoutLine ("Source repository: " ++ root),
     Event.stdoutLine ("Working directory: " ++ work),
     Event.stdoutLine ("Branch: " ++ rev.display)]

/-- The success-only `JsonOutput` record of `src/main.rs` lines 170-179,
written only when `json_out` is on; its `branch` field shows the qualified
revision. -/
def jsonEvents (a : RunArgs) (root work : String) (q : GitRev) : List Event :=
  if a.jsonOut then [Event.stdoutJson root work q.display] else []

/-- The `run` subcommand of `src/main.rs` (lines 72-179), starting after the
upstream identity derivation: `root` is the normalized repository root
returned by `Git::get_repository_root` and `work` is
`work_root/<sha256(root)>`.  Steps, in source order: empty-command check, PID
lock, revision resolution, human-readable progress lines (suppressed when
`json_out`), remote qualification, clone-or-fetch, copy-remote, cleanse,
checkout, user command (its stdout nulled when `json_out`), and on success in
json mode the single `JsonOutput` record on stdout. -/
def run (a : RunArgs) (w : World) (root work : String) : RunOut :=
  if a.args.isEmpty then ⟨.error .noCommand, [], none, none, w.wsRemotes, w.wsExists⟩
  else if ¬ w.lockOk then ⟨.error .lockContended, [], none, none, w.wsRemotes, w.wsExists⟩
  else
    match resolveStep a ⟨a.jsonOut⟩ w.env root with
    | (.error _, evs) => ⟨.error .headFailed, evs, none, none, w.wsRemotes, w.wsExists⟩
    | (.ok rev, evs) =>
      match (syncStep ⟨a.jsonOut⟩ w root work).result with
      | .error e =>
        ⟨.error e,
         evs ++ printlnEvents a root work rev ++ (syncStep ⟨a.jsonOut⟩ w root work).events,
         some rev, none, (syncStep ⟨a.jsonOut⟩ w root work).remotes,
         (syncStep ⟨a.jsonOut⟩ w root work).wsExists⟩
      | .ok _ =>
        match copyStep w a.copyRemote (syncStep ⟨a.jsonOut⟩ w root work).remotes root work with
        | (.error e, cEvs, remotes2) =>
          ⟨.error e,
           evs ++ printlnEvents a root work rev
             ++ (syncStep ⟨a.jsonOut⟩ w root work).events ++ cEvs,
           some rev, none, remotes2, (syncStep ⟨a.jsonOut⟩ w root work).wsExists⟩
        | (.ok _, cEvs, remotes2) =>
          match (Git.cleanse ⟨a.jsonOut⟩ w.env work).1 with
          | .error _ =>
            ⟨.error .cleanseFailed,
             evs ++ printlnEvents a root work rev
               ++ (syncStep ⟨a.jsonOut⟩ w root work).events ++ cEvs
               ++ (Git.cleanse ⟨a.jsonOut⟩ w.env work).2,
             some rev, none, remotes2, (syncStep ⟨a.jsonOut⟩ w root work).wsExists⟩
          | .ok _ =>
            match (Git.checkout ⟨a.jsonOut⟩ w.env work (qualifyRev rev).asRef).1 with
            | .error _ =>
              ⟨.error .checkoutFailed,
               evs ++ printlnEvents a root work rev
                 ++ (syncStep ⟨a.jsonOut⟩ w root work).events ++ cEvs
                 ++ (Git.cleanse ⟨a.jsonOut⟩ w.env work).2
                 ++ (Git.checkout ⟨a.jsonOut⟩ w.env work (qualifyRev rev).asRef).2,
               some rev, none, remotes2, (syncStep ⟨a.jsonOut⟩ w root work).wsExists⟩
            | .ok _ =>
              if ¬ w.userCmdOk then
                ⟨.error .commandFailed,
                 evs ++ printlnEvents a root work rev
                   ++ (syncStep ⟨a.jsonOut⟩ w root work).events ++ cEvs
                   ++ (Git.cleanse ⟨a.jsonOut⟩ w.env work).2
                   ++ (Git.checkout ⟨a.jsonOut⟩ w.env work (qualifyRev rev).asRef).2
                   ++ [Event.userCmd work a.args a.jsonOut],
                 some rev, some (qualifyRev rev).asRef, remotes2,
                 (syncStep ⟨a.jsonOut⟩ w root work).wsExists⟩
              else
                ⟨.ok (),
                 evs ++ printlnEvents a root work rev
                   ++ (syncStep ⟨a.jsonOut⟩ w root work).events ++ cEvs
                   ++ (Git.cleanse ⟨a.jsonOut⟩ w.env work).2
                   ++ (Git.checkout ⟨a.jsonOut⟩ w.env work (qualifyRev rev).asRef).2
                   ++ [Event.userCmd work a.args a.jsonOut]
                   ++ jsonEvents a root work (qualifyRev rev),
                 some rev, some (qualifyRev rev).asRef, remotes2,
                 (syncStep ⟨a.jsonOut⟩ w root work).wsExists⟩

/-- Events that write to this process's own standard output. -/
def isStdoutEvent : Event → Bool
  | .stdoutLine _ => true
  | .stdoutJson _ _ _ => true
  | _ => false

/-- The standard-output content of a trace. -/
def stdoutEvents (l : List Event) : List Event :=
  l.filter isStdoutEvent

/-- Whether an event lets a child process write to this process's stdout:
`Git::exec` inherits stdout unless `silent`; `Git::exec_output` always pipes
and captures it; the user command inherits stdout unless nulled; the
remaining events are not child processes. -/
def childStdoutSuppressed : Event → Bool
  | .git _ _ nulled => nulled
  | .userCmd _ _ nulled => nulled
  | _ => true

/-- Boolean success test for a unit-valued `GitError` result. -/
def isOkU : Except GitError Unit → Bool
  | .ok _ => true
  | .error _ => false

/-- Boolean success test for the overall run result. -/
def isOkR : Except RunErr Unit → Bool
  | .ok _ => true
  | .error _ => false

/-- C5: every VCS adapter operation that shells out classifies its outcome
into exactly two error kinds: `GitError.Execute` exactly when the engine could
not be launched at all, and `GitError.Unknown c` exactly when the engine ran
and exited unsuccessfully with code `c` — where `c = none` exactly when the
process was terminated by a signal; a zero-exit run is a success.  Stated for
both classifiers, `Git::exec` and `Git::exec_output`. -/
theorem git_error_classification (r : ProcResult) (out : String) :
    (Git.execStatus r = .ok () ↔ r = .exited (some 0)) ∧
    (Git.execStatus r = .error .Execute ↔ r = .launchFailure) ∧
    (∀ c, Git.execStatus r = .error (.Unknown c) ↔ (r = .exited c ∧ c ≠ some 0)) ∧
    (Git.execOutputStatus r out = .ok out ↔ r = .exited (some 0)) ∧
    (Git.execOutputStatus r out = .error .Execute ↔ r = .launchFailure) ∧
    (∀ c, Git.execOutputStatus r out = .error (.Unknown c) ↔ (r = .exited c ∧ c ≠ some 0)) := by
  cases r with
  | launchFailure => simp [Git.execStatus, Git.execOutputStatus]
  | exited code =>
    by_cases h : code = some 0 <;>
      simp [Git.execStatus, Git.execOutputStatus, statusSuccess, h]

/-- Witness for C5 at concrete inputs. -/
theorem git_error_classification_witness :
    Git.execStatus (.exited (some 0)) = .ok () ∧
    Git.execStatus .launchFailure = .error .Execute ∧
    Git.execStatus (.exited (some 128)) = .error (.Unknown (some 128)) ∧
    Git.execStatus (.exited none) = .error (.Unknown none) := by
  refine ⟨?_, ?_, ?_, ?_⟩
  · exact (git_error_classification (.exited (some 0)) "").1.mpr rfl
  · exact (git_error_classification .launchFailure "").2.1.mpr rfl
  · exact ((git_error_classification (.exited (some 128)) "").2.2.1 (some 128)).mpr
      (by simp)
  · exact ((git_error_classification (.exited none) "").2.2.1 none).mpr (by simp)

/-- C4: `Git::cleanse` performs a hard reset followed by `git clean -fdx`, in
exactly that order: its trace always begins with the reset invocation, the
clean invocation is present exactly when the reset succeeded, and the
operation as a whole succeeds exactly when both steps succeeded. -/
theorem cleanse_reset_before_clean (g : Git) (env : Env) (path : String) :
    ((Git.cleanse g env path).2 =
      if isOkU (Git.execStatus (env (some path) ["reset", "--hard"]).1) then
        [Event.git (some path) ["reset", "--hard"] g.silent,
         Event.git (some path) ["clean", "-fdx"] g.silent]
      else
        [Event.git (some path) ["reset", "--hard"] g.silent]) ∧
    (isOkU (Git.cleanse g env path).1 = true ↔
      (isOkU (Git.execStatus (env (some path) ["reset", "--hard"]).1) = true ∧
       isOkU (Git.execStatus (env (some path) ["clean", "-fdx"]).1) = true)) := by
  unfold Git.cleanse Git.exec
  cases h1 : Git.execStatus (env (some path) ["reset", "--hard"]).1 <;>
    cases h2 : Git.execStatus (env (some path) ["clean", "-fdx"]).1 <;>
    simp [isOkU, h1, h2]

/-- Witness for C4 at a concrete environment in which both steps succeed. -/
theorem cleanse_reset_before_clean_witness :
    (Git.cleanse ⟨false⟩ (fun _ _ => (.exited (some 0), "")) "/w").2 =
      [Event.git (some "/w") ["reset", "--hard"] false,
       Event.git (some "/w") ["clean", "-fdx"] false] := by
  have h := cleanse_reset_before_clean ⟨false⟩ (fun _ _ => (.exited (some 0), "")) "/w"
  simpa [Git.execStatus, statusSuccess, isOkU] using h.1

/-- C2: the effective revision is resolved with precedence explicit branch >
explicit commit > current head of the source repository, and the current head
resolves to `Branch name` when `git rev-parse --abbrev-ref HEAD` prints a
branch name (anything whose trimmed form is not the literal "HEAD") and to
`Commit id` when HEAD is detached (the trimmed form is "HEAD"). -/
theorem revision_resolution_precedence (a : RunArgs) (g : Git) (env : Env)
    (root b c o1 o2 : String) :
    (a.branch = some b → (resolveStep a g env root).1 = .ok (GitRev.Branch b)) ∧
    (a.branch = none → a.commit = some c →
      (resolveStep a g env root).1 = .ok (GitRev.Commit c)) ∧
    (a.branch = none → a.commit = none →
      (resolveStep a g env root).1 = (Git.getCurrentHead g env root).1) ∧
    (env (some root) ["rev-parse", "--abbrev-ref", "HEAD"] = (.exited (some 0), o1) →
      rustTrimEnd o1 ≠ "HEAD" →
      (Git.getCurrentHead g env root).1 = .ok (GitRev.Branch (rustTrimEnd o1))) ∧
    (env (some root) ["rev-parse", "--abbrev-ref", "HEAD"] = (.exited (some 0), o1) →
      rustTrimEnd o1 = "HEAD" →
      env (some root) ["rev-parse", "HEAD"] = (.exited (some 0), o2) →
      (Git.getCurrentHead g env root).1 = .ok (GitRev.Commit (rustTrimEnd o2))) := by
  refine ⟨?_, ?_, ?_, ?_, ?_⟩
  · intro hb
    simp [resolveStep, hb]
  · intro hb hc
    simp [resolveStep, hb, hc]
  · intro hb hc
    simp [resolveStep, hb, hc]
  · intro h1 hne
    simp [Git.getCurrentHead, Git.execOutput, Git.execOutputStatus, statusSuccess, h1, hne]
  · intro h1 heq h2
    simp [Git.getCurrentHead, Git.execOutput, Git.execOutputStatus, statusSuccess, h1, heq, h2]

/-- Witness for C2: concrete resolutions exercising each precedence level and
both head shapes. -/
theorem revision_resolution_precedence_witness :
    (resolveStep ⟨some "dev", some "c0ffee", none, ["make"], false⟩ ⟨false⟩
        (fun _ _ => (.exited (some 0), "")) "/r").1 = .ok (GitRev.Branch "dev") ∧
    (resolveStep ⟨none, some "c0ffee", none, ["make"], false⟩ ⟨false⟩
        (fun _ _ => (.exited (some 0), "")) "/r").1 = .ok (GitRev.Commit "c0ffee") ∧
    (Git.getCurrentHead ⟨false⟩ (fun _ _ => (.exited (some 0), "main\n")) "/r").1 =
      .ok (GitRev.Branch "main") ∧
    (Git.getCurrentHead ⟨false⟩
        (fun _ args =>
          if args = ["rev-parse", "--abbrev-ref", "HEAD"] then (.exited (some 0), "HEAD\n")
          else (.exited (some 0), "abc123\n")) "/r").1 = .ok (GitRev.Commit "abc123") := by
  refine ⟨?_, ?_, ?_, ?_⟩
  · exact (revision_resolution_precedence _ _ _ "/r" "dev" "" "" "").1 rfl
  · exact (revision_resolution_precedence _ _ _ "/r" "" "c0ffee" "" "").2.1 rfl rfl
  · have h := (revision_resolution_precedence
      ⟨none, none, none, ["make"], false⟩ ⟨false⟩
      (fun _ _ => (.exited (some 0), "main\n")) "/r" "" "" "main\n" "").2.2.2.1
    simpa using h rfl (by decide)
  · have h := (revision_resolution_precedence
      ⟨none, none, none, ["make"], false⟩ ⟨false⟩
      (fun _ args =>
        if args = ["rev-parse", "--abbrev-ref", "HEAD"] then (.exited (some 0), "HEAD\n")
        else (.exited (some 0), "abc123\n")) "/r" "" "" "HEAD\n" "abc123\n").2.2.2.2
    simpa using h (by decide) (by decide) (by decide)

/-- Helper: a successful run passed every stage, and its output has the fully
decomposed success shape (trace, resolved revision, checked-out ref, remotes,
workspace existence). -/
theorem run_ok_struct (a : RunArgs) (w : World) (root work : String) :
    (run a w root work).result = .ok () →
    ∃ rev cEvs remotes2,
      (resolveStep a ⟨a.jsonOut⟩ w.env root).1 = .ok rev ∧
      (syncStep ⟨a.jsonOut⟩ w root work).result = .ok () ∧
      copyStep w a.copyRemote (syncStep ⟨a.jsonOut⟩ w root work).remotes root work =
        (.ok (), cEvs, remotes2) ∧
      (Git.cleanse ⟨a.jsonOut⟩ w.env work).1 = .ok () ∧
      (Git.checkout ⟨a.jsonOut⟩ w.env work (qualifyRev rev).asRef).1 = .ok () ∧
      w.userCmdOk = true ∧
      run a w root work =
        ⟨.ok (),
         (resolveStep a ⟨a.jsonOut⟩ w.env root).2 ++ printlnEvents a root work rev
           ++ (syncStep ⟨a.jsonOut⟩ w root work).events ++ cEvs
           ++ (Git.cleanse ⟨a.jsonOut⟩ w.env work).2
           ++ (Git.checkout ⟨a.jsonOut⟩ w.env work (qualifyRev rev).asRef).2
           ++ [Event.userCmd work a.args a.jsonOut]
           ++ jsonEvents a root work (qualifyRev rev),
         some rev, some (qualifyRev rev).asRef, remotes2,
         (syncStep ⟨a.jsonOut⟩ w root work).wsExists⟩ := by
  unfold run
  split
  · intro h; simp at h
  · split
    · intro h; simp at h
    · split
      · intro h; simp at h
      · rename_i rev evs heq
        split
        · intro h; simp at h
        · rename_i u heq2
          split
          · intro h; simp at h
          · rename_i u2 cEvs remotes2 heq3
            split
            · intro h; simp at h
            · rename_i u3 heq4
              split
              · intro h; simp at h
              · rename_i u4 heq5
                split
                · intro h; simp at h
                · rename_i hCmd
                  intro _
                  refine ⟨rev, cEvs, remotes2, ?_, ?_, ?_, ?_, ?_, ?_, ?_⟩
                  · simp [heq]
                  · simp [heq2]
                  · simp [heq3]
                  · simp [heq4]
                  · simp [heq5]
                  · simpa using hCmd
                  · simp [heq]

/-- Helper: after looking up the name just set, the new URL is returned. -/
theorem lookup_setRemote_self (l : List (String × String)) (n u : String) :
    lookupRemote (setRemote l n u) n = some u := by
  induction l with
  | nil => simp [setRemote, lookupRemote]
  | cons hd tl ih =>
    by_cases h : hd.1 = n <;> simp [setRemote, lookupRemote, h, ih]

/-- Helper: setting one remote leaves every other name's URL unchanged. -/
theorem lookup_setRemote_other (l : List (String × String)) (n u m : String)
    (h : m ≠ n) : lookupRemote (setRemote l n u) m = lookupRemote l m := by
  induction l with
  | nil => simp [setRemote, lookupRemote, (Ne.symm h : n ≠ m)]
  | cons hd tl ih =>
    by_cases h1 : hd.1 = n <;> by_cases h2 : hd.1 = m <;>
      simp_all [setRemote, lookupRemote]

/-- Helper: a successful sync step leaves the workspace directory existing. -/
theorem syncStep_ok_wsExists (g : Git) (w : World) (root work : String)
    (h : (syncStep g w root work).result = .ok ()) :
    (syncStep g w root work).wsExists = true := by
  revert h
  unfold syncStep
  repeat' split
  all_goals intro h
  all_goals simp_all

/-- Helper: full shape of the sync step when the workspace directory exists —
the fetch path: force-set the reserved remote, then fetch; no mkdir and no
clone are performed, and on success the reserved remote points at `root`. -/
theorem syncStep_exists_shape (g : Git) (w : World) (root work : String)
    (hex : w.wsExists = true) :
    ((syncStep g w root work).events = [Event.forceRemoteUrl work FERSK_ORIGIN root] ∨
     (syncStep g w root work).events =
       [Event.forceRemoteUrl work FERSK_ORIGIN root,
        Event.git (some work) ["fetch", FERSK_ORIGIN] g.silent]) ∧
    ((syncStep g w root work).result = .ok () →
      ((syncStep g w root work).events =
        [Event.forceRemoteUrl work FERSK_ORIGIN root,
         Event.git (some work) ["fetch", FERSK_ORIGIN] g.silent] ∧
       (syncStep g w root work).remotes = setRemote w.wsRemotes FERSK_ORIGIN root)) := by
  unfold syncStep
  rw [hex]
  by_cases hf : w.forceOk FERSK_ORIGIN root
  · cases hfe : (Git.fetch g w.env work FERSK_ORIGIN).1 <;>
      simp_all [forceRemoteUrl, Git.fetch, Git.exec]
  · simp [forceRemoteUrl, hf]

/-- Helper: full shape of the sync step when the workspace directory does not
exist — the clone path: create the directory, then clone; the mkdir precedes
the clone, and on success the fresh clone's remote table is git's default
single remote "origin" pointing at the source root. -/
theorem syncStep_clone_shape (g : Git) (w : World) (root work : String)
    (hex : w.wsExists = false) :
    ((syncStep g w root work).events = [Event.mkdir work] ∨
     (syncStep g w root work).events =
       [Event.mkdir work, Event.git none ["clone", root, work] g.silent]) ∧
    ((syncStep g w root work).result = .ok () →
      ((syncStep g w root work).events =
        [Event.mkdir work, Event.git none ["clone", root, work] g.silent] ∧
       (syncStep g w root work).remotes = [("origin", root)])) := by
  unfold syncStep
  rw [hex]
  by_cases hm : w.mkdirOk
  · cases hc : (Git.clone g w.env root work).1 <;>
      simp_all [Git.clone, Git.exec]
  · simp [hm]

/-- Helper: the copy-remote step with no copy remote is a no-op. -/
theorem copyStep_none (w : World) (remotes : List (String × String))
    (root work : String) :
    copyStep w none remotes root work = (.ok (), [], remotes) := by
  simp [copyStep]

/-- Helper: the copy-remote step only ever force-sets a remote with exactly
the supplied name, so every other remote's URL is unchanged by it. -/
theorem copyStep_preserves_other (w : World) (r : String)
    (remotes : List (String × String)) (root work name : String) (h : name ≠ r) :
    lookupRemote (copyStep w (some r) remotes root work).2.2 name =
      lookupRemote remotes name := by
  unfold copyStep
  cases hg : getRemoteUrl w.sourceRemotes r with
  | error e => simp [hg]
  | ok url =>
    by_cases hf : w.forceOk r url <;>
      simp [hg, forceRemoteUrl, hf, lookup_setRemote_other _ _ _ _ h]

/-- Helper: events of the copy-remote step are remote queries and updates
only (never engine invocations, mkdir, user command, or stdout writes). -/
theorem copyStep_events_shape (w : World) (copyRemote : Option String)
    (remotes : List (String × String)) (root work : String) :
    ∀ e ∈ (copyStep w copyRemote remotes root work).2.1,
      (∃ d n, e = Event.getRemoteUrl d n) ∨ (∃ d n u, e = Event.forceRemoteUrl d n u) := by
  unfold copyStep
  cases copyRemote with
  | none => simp
  | some r =>
    cases hg : getRemoteUrl w.sourceRemotes r with
    | error e => simp [hg]
    | ok url =>
      by_cases hf : w.forceOk r url <;>
        simp_all [forceRemoteUrl]

/-- Helper: events of revision resolution are captured-output engine
invocations only. -/
theorem resolveStep_events_shape (a : RunArgs) (g : Git) (env : Env) (root : String) :
    ∀ e ∈ (resolveStep a g env root).2, ∃ cwd ar, e = Event.gitOut cwd ar := by
  unfold resolveStep Git.getCurrentHead Git.execOutput
  cases a.branch with
  | some b => simp
  | none =>
    cases a.commit with
    | some c => simp
    | none =>
      cases h1 : Git.execOutputStatus (env (some root) ["rev-parse", "--abbrev-ref", "HEAD"]).1
          (env (some root) ["rev-parse", "--abbrev-ref", "HEAD"]).2 with
      | error e => simp_all
      | ok out =>
        by_cases hh : rustTrimEnd out ≠ "HEAD"
        · simp_all
        · cases h2 : Git.execOutputStatus (env (some root) ["rev-parse", "HEAD"]).1
              (env (some root) ["rev-parse", "HEAD"]).2 with
          | error e => simp_all
          | ok out2 => simp_all

/-- Helper: events of `Git::cleanse` are exactly the reset and clean engine
invocations. -/
theorem cleanse_events_shape (g : Git) (env : Env) (path : String) :
    ∀ e ∈ (Git.cleanse g env path).2,
      e = Event.git (some path) ["reset", "--hard"] g.silent ∨
      e = Event.git (some path) ["clean", "-fdx"] g.silent := by
  unfold Git.cleanse Git.exec
  cases h : Git.execStatus (env (some path) ["reset", "--hard"]).1 <;> simp_all

/-- Helper: the progress lines are stdout lines (and there are none in json
mode). -/
theorem printlnEvents_shape (a : RunArgs) (root work : String) (rev : GitRev) :
    ∀ e ∈ printlnEvents a root work rev, ∃ s, e = Event.stdoutLine s := by
  unfold printlnEvents
  by_cases h : a.jsonOut <;> simp [h]

/-- Helper: the json segment is the single structured record, and it occurs
only in json mode. -/
theorem jsonEvents_shape (a : RunArgs) (root work : String) (q : GitRev) :
    ∀ e ∈ jsonEvents a root work q,
      e = Event.stdoutJson root work q.display ∧ a.jsonOut = true := by
  unfold jsonEvents
  by_cases h : a.jsonOut <;> simp [h]

/-- Helper: the events of the sync step, whichever path it takes, are the
reserved-remote update, the fetch, the mkdir, or the clone. -/
theorem syncStep_events_all (g : Git) (w : World) (root work : String) :
    ∀ e ∈ (syncStep g w root work).events,
      e = Event.forceRemoteUrl work FERSK_ORIGIN root ∨
      e = Event.git (some work) ["fetch", FERSK_ORIGIN] g.silent ∨
      e = Event.mkdir work ∨
      e = Event.git none ["clone", root, work] g.silent := by
  unfold syncStep
  repeat' split
  all_goals simp_all [Git.fetch, Git.clone, Git.exec]

/-- Helper: the single event of `Git::checkout`. -/
theorem checkout_events (g : Git) (env : Env) (path ref : String) :
    (Git.checkout g env path ref).2 = [Event.git (some path) ["checkout", ref] g.silent] :=
  rfl

/-- Helper: every event of a run's trace comes from one of the run's stages,
so a predicate holding on every stage's possible events holds on the whole
trace. -/
theorem run_trace_all (a : RunArgs) (w : World) (root work : String) (p : Event → Prop)
    (hres : ∀ e ∈ (resolveStep a ⟨a.jsonOut⟩ w.env root).2, p e)
    (hprint : ∀ rev, ∀ e ∈ printlnEvents a root work rev, p e)
    (hsync : ∀ e ∈ (syncStep ⟨a.jsonOut⟩ w root work).events, p e)
    (hcopy : ∀ rem, ∀ e ∈ (copyStep w a.copyRemote rem root work).2.1, p e)
    (hclean : ∀ e ∈ (Git.cleanse ⟨a.jsonOut⟩ w.env work).2, p e)
    (hco : ∀ ref, ∀ e ∈ (Git.checkout ⟨a.jsonOut⟩ w.env work ref).2, p e)
    (hcmd : p (Event.userCmd work a.args a.jsonOut))
    (hjson : ∀ q, ∀ e ∈ jsonEvents a root work q, p e) :
    ∀ e ∈ (run a w root work).trace, p e := by
  intro e hmem
  revert hmem
  unfold run
  split
  · intro hmem; simp at hmem
  · split
    · intro hmem; simp at hmem
    · split
      · rename_i e1 evs heq
        intro hmem
        simp only at hmem
        exact hres e ((congrArg Prod.snd heq).symm ▸ hmem)
      · rename_i rev evs heq
        have hevs : (resolveStep a ⟨a.jsonOut⟩ w.env root).2 = evs := congrArg Prod.snd heq
        split
        · rename_i er heq2
          intro hmem
          simp only [List.mem_append] at hmem
          rcases hmem with (h | h) | h
          · exact hres e (hevs.symm ▸ h)
          · exact hprint rev e h
          · exact hsync e h
        · rename_i u heq2
          split
          · rename_i er cEvs rem2 heq3
            have hcEvs : (copyStep w a.copyRemote
                (syncStep ⟨a.jsonOut⟩ w root work).remotes root work).2.1 = cEvs := by
              rw [heq3]
            intro hmem
            simp only [List.mem_append] at hmem
            rcases hmem with ((h | h) | h) | h
            · exact hres e (hevs.symm ▸ h)
            · exact hprint rev e h
            · exact hsync e h
            · exact hcopy _ e (hcEvs.symm ▸ h)
          · rename_i u2 cEvs rem2 heq3
            have hcEvs : (copyStep w a.copyRemote
                (syncStep ⟨a.jsonOut⟩ w root work).remotes root work).2.1 = cEvs := by
              rw [heq3]
            split
            · rename_i er heq4
              intro hmem
              simp only [List.mem_append] at hmem
              rcases hmem with (((h | h) | h) | h) | h
              · exact hres e (hevs.symm ▸ h)
              · exact hprint rev e h
              · exact hsync e h
              · exact hcopy _ e (hcEvs.symm ▸ h)
              · exact hclean e h
            · rename_i u3 heq4
              split
              · rename_i er heq5
                intro hmem
                simp only [List.mem_append] at hmem
                rcases hmem with ((((h | h) | h) | h) | h) | h
                · exact hres e (hevs.symm ▸ h)
                · exact hprint rev e h
                · exact hsync e h
                · exact hcopy _ e (hcEvs.symm ▸ h)
                · exact hclean e h
                · exact hco _ e h
              · rename_i u4 heq5
                split
                · rename_i hCmd
                  intro hmem
                  simp only [List.mem_append, List.mem_singleton] at hmem
                  rcases hmem with (((((h | h) | h) | h) | h) | h) | h
                  · exact hres e (hevs.symm ▸ h)
                  · exact hprint rev e h
                  · exact hsync e h
                  · exact hcopy _ e (hcEvs.symm ▸ h)
                  · exact hclean e h
                  · exact hco _ e h
                  · exact h ▸ hcmd
                · rename_i hCmd
                  intro hmem
                  simp only [List.mem_append, List.mem_singleton] at hmem
                  rcases hmem with ((((((h | h) | h) | h) | h) | h) | h) | h
                  · exact hres e (hevs.symm ▸ h)
                  · exact hprint rev e h
                  · exact hsync e h
                  · exact hcopy _ e (hcEvs.symm ▸ h)
                  · exact hclean e h
                  · exact hco _ e h
                  · exact h ▸ hcmd
                  · exact hjson _ e h

/-- Helper: revision resolution writes nothing to stdout. -/
theorem no_json_resolve (a : RunArgs) (g : Git) (env : Env) (root x y z : String) :
    Event.stdoutJson x y z ∉ (resolveStep a g env root).2 := by
  intro h
  obtain ⟨cwd, ar, hs⟩ := resolveStep_events_shape a g env root _ h
  simp at hs

/-- Helper: the progress lines are never the structured record. -/
theorem no_json_println (a : RunArgs) (root work x y z : String) (rev : GitRev) :
    Event.stdoutJson x y z ∉ printlnEvents a root work rev := by
  intro h
  obtain ⟨s, hs⟩ := printlnEvents_shape a root work rev _ h
  simp at hs

/-- Helper: the sync step writes nothing to stdout. -/
theorem no_json_sync (g : Git) (w : World) (root work x y z : String) :
    Event.stdoutJson x y z ∉ (syncStep g w root work).events := by
  intro h
  rcases syncStep_events_all g w root work _ h with hs | hs | hs | hs <;> simp at hs

/-- Helper: the copy-remote step writes nothing to stdout. -/
theorem no_json_copy (w : World) (copyRemote : Option String)
    (remotes : List (String × String)) (root work x y z : String) :
    Event.stdoutJson x y z ∉ (copyStep w copyRemote remotes root work).2.1 := by
  intro h
  rcases copyStep_events_shape w copyRemote remotes root work _ h with ⟨d, n, hs⟩ | ⟨d, n, u, hs⟩ <;>
    simp at hs

/-- Helper: the cleanse step writes nothing to stdout. -/
theorem no_json_cleanse (g : Git) (env : Env) (path x y z : String) :
    Event.stdoutJson x y z ∉ (Git.cleanse g env path).2 := by
  intro h
  rcases cleanse_events_shape g env path _ h with hs | hs <;> simp at hs

/-- Helper: the structured record appears in a trace only when the run
succeeded and json mode was on — every failing run emits no structured
payload. -/
theorem run_json_only_on_success (a : RunArgs) (w : World) (root work : String)
    (x y z : String) (hmem : Event.stdoutJson x y z ∈ (run a w root work).trace) :
    (run a w root work).result = .ok () ∧ a.jsonOut = true := by
  revert hmem
  unfold run
  split
  · intro hmem; simp at hmem
  · split
    · intro hmem; simp at hmem
    · split
      · rename_i e1 evs heq
        have hevs : (resolveStep a ⟨a.jsonOut⟩ w.env root).2 = evs := congrArg Prod.snd heq
        intro hmem
        simp only at hmem
        exact absurd (hevs.symm ▸ hmem) (no_json_resolve a ⟨a.jsonOut⟩ w.env root x y z)
      · rename_i rev evs heq
        have hevs : (resolveStep a ⟨a.jsonOut⟩ w.env root).2 = evs := congrArg Prod.snd heq
        split
        · rename_i er heq2
          intro hmem
          simp only [List.mem_append] at hmem
          rcases hmem with (h | h) | h
          · exact absurd (hevs.symm ▸ h) (no_json_resolve a ⟨a.jsonOut⟩ w.env root x y z)
          · exact absurd h (no_json_println a root work x y z rev)
          · exact absurd h (no_json_sync ⟨a.jsonOut⟩ w root work x y z)
        · rename_i u heq2
          split
          · rename_i er cEvs rem2 heq3
            have hcEvs : (copyStep w a.copyRemote
                (syncStep ⟨a.jsonOut⟩ w root work).remotes root work).2.1 = cEvs := by
              rw [heq3]
            intro hmem
            simp only [List.mem_append] at hmem
            rcases hmem with ((h | h) | h) | h
            · exact absurd (hevs.symm ▸ h) (no_json_resolve a ⟨a.jsonOut⟩ w.env root x y z)
            · exact absurd h (no_json_println a root work x y z rev)
            · exact absurd h (no_json_sync ⟨a.jsonOut⟩ w root work x y z)
            · exact absurd (hcEvs.symm ▸ h) (no_json_copy w a.copyRemote _ root work x y z)
          · rename_i u2 cEvs rem2 heq3
            have hcEvs : (copyStep w a.copyRemote
                (syncStep ⟨a.jsonOut⟩ w root work).remotes root work).2.1 = cEvs := by
              rw [heq3]
            split
            · rename_i er heq4
              intro hmem
              simp only [List.mem_append] at hmem
              rcases hmem with (((h | h) | h) | h) | h
              · exact absurd (hevs.symm ▸ h) (no_json_resolve a ⟨a.jsonOut⟩ w.env root x y z)
              · exact absurd h (no_json_println a root work x y z rev)
              · exact absurd h (no_json_sync ⟨a.jsonOut⟩ w root work x y z)
              · exact absurd (hcEvs.symm ▸ h) (no_json_copy w a.copyRemote _ root work x y z)
              · exact absurd h (no_json_cleanse ⟨a.jsonOut⟩ w.env work x y z)
            · rename_i u3 heq4
              split
              · rename_i er heq5
                intro hmem
                simp only [List.mem_append, checkout_events, List.mem_singleton] at hmem
                rcases hmem with ((((h | h) | h) | h) | h) | h
                · exact absurd (hevs.symm ▸ h) (no_json_resolve a ⟨a.jsonOut⟩ w.env root x y z)
                · exact absurd h (no_json_println a root work x y z rev)
                · exact absurd h (no_json_sync ⟨a.jsonOut⟩ w root work x y z)
                · exact absurd (hcEvs.symm ▸ h) (no_json_copy w a.copyRemote _ root work x y z)
                · exact absurd h (no_json_cleanse ⟨a.jsonOut⟩ w.env work x y z)
                · simp at h
              · rename_i u4 heq5
                split
                · rename_i hCmd
                  intro hmem
                  simp only [List.mem_append, checkout_events, List.mem_singleton] at hmem
                  rcases hmem with (((((h | h) | h) | h) | h) | h) | h
                  · exact absurd (hevs.symm ▸ h) (no_json_resolve a ⟨a.jsonOut⟩ w.env root x y z)
                  · exact absurd h (no_json_println a root work x y z rev)
                  · exact absurd h (no_json_sync ⟨a.jsonOut⟩ w root work x y z)
                  · exact absurd (hcEvs.symm ▸ h) (no_json_copy w a.copyRemote _ root work x y z)
                  · exact absurd h (no_json_cleanse ⟨a.jsonOut⟩ w.env work x y z)
                  · simp at h
                  · simp at h
                · rename_i hCmd
                  intro hmem
                  simp only [List.mem_append, checkout_events, List.mem_singleton] at hmem
                  rcases hmem with ((((((h | h) | h) | h) | h) | h) | h) | h
                  · exact absurd (hevs.symm ▸ h) (no_json_resolve a ⟨a.jsonOut⟩ w.env root x y z)
                  · exact absurd h (no_json_println a root work x y z rev)
                  · exact absurd h (no_json_sync ⟨a.jsonOut⟩ w root work x y z)
                  · exact absurd (hcEvs.symm ▸ h) (no_json_copy w a.copyRemote _ root work x y z)
                  · exact absurd h (no_json_cleanse ⟨a.jsonOut⟩ w.env work x y z)
                  · simp at h
                  · simp at h
                  · exact ⟨rfl, (jsonEvents_shape a root work (qualifyRev rev) _ h).2⟩

/-- A git engine in which every command succeeds and prints "main". -/
def happyEnv : Env := fun _ _ => (.exited (some 0), "main\n")

/-- A world in which everything succeeds: lock acquired, workspace exists,
directories creatable, a source remote "upstream" configured, the workspace's
reserved remote currently pointing at a stale path. -/
def happyWorld : World where
  env := happyEnv
  lockOk := true
  wsExists := true
  mkdirOk := true
  sourceRemotes := [("upstream", "https://example.com/up.git")]
  wsRemotes := [("fersk-origin", "/old/path")]
  forceOk := fun _ _ => true
  userCmdOk := true

/-- C3: on every successful run whose effective revision was resolved as a
branch, the ref passed to checkout in the workspace is the branch name
qualified with the reserved remote prefix (`fersk-origin/<branch>`); for a
commit revision the commit identifier is passed to checkout unmodified. -/
theorem checkout_ref_qualification (a : RunArgs) (w : World) (root work b cm : String)
    (h : (run a w root work).result = .ok ()) :
    ((run a w root work).resolvedRev = some (GitRev.Branch b) →
      (run a w root work).checkedOut = some (FERSK_ORIGIN ++ "/" ++ b) ∧
      Event.git (some work) ["checkout", FERSK_ORIGIN ++ "/" ++ b] a.jsonOut ∈
        (run a w root work).trace) ∧
    ((run a w root work).resolvedRev = some (GitRev.Commit cm) →
      (run a w root work).checkedOut = some cm ∧
      Event.git (some work) ["checkout", cm] a.jsonOut ∈ (run a w root work).trace) := by
  obtain ⟨rev, cEvs, remotes2, hres, hsync, hcopy, hclean, hco, hcmd, hrun⟩ :=
    run_ok_struct a w root work h
  constructor
  · intro hb
    rw [hrun] at hb
    simp only at hb
    rw [Option.some_inj] at hb
    subst hb
    rw [hrun]
    constructor
    · simp [qualifyRev, GitRev.asRef]
    · simp [checkout_events, qualifyRev, GitRev.asRef, List.mem_append]
  · intro hc
    rw [hrun] at hc
    simp only at hc
    rw [Option.some_inj] at hc
    subst hc
    rw [hrun]
    constructor
    · simp [qualifyRev, GitRev.asRef]
    · simp [checkout_events, qualifyRev, GitRev.asRef, List.mem_append]

/-- Witness for C3: a concrete successful run on branch "main" checks out
"fersk-origin/main", and one on an explicit commit checks out the bare id. -/
theorem checkout_ref_qualification_witness :
    Event.git (some "/wrk") ["checkout", "fersk-origin/main"] false ∈
      (run ⟨some "main", none, none, ["make"], false⟩ happyWorld "/src" "/wrk").trace ∧
    Event.git (some "/wrk") ["checkout", "abc123"] false ∈
      (run ⟨none, some "abc123", none, ["make"], false⟩ happyWorld "/src" "/wrk").trace := by
  constructor
  · have h := checkout_ref_qualification ⟨some "main", none, none, ["make"], false⟩
      happyWorld "/src" "/wrk" "main" "" rfl
    exact (h.1 rfl).2
  · have h := checkout_ref_qualification ⟨none, some "abc123", none, ["make"], false⟩
      happyWorld "/src" "/wrk" "" "abc123" rfl
    exact (h.2 rfl).2

/-- C10: the fetch-vs-clone decision is taken solely on the existence of the
workspace directory — the model (`World`) carries no notion of the directory
containing a valid repository, so an existing non-repository directory takes
the fetch path: whenever the directory exists, no clone invocation occurs
anywhere in the run's trace (even on failing runs), and a successful run
performed the fetch; whenever it does not exist, the sync step's events are
the directory creation optionally followed by the clone — the mkdir always
precedes the clone — and on a successful run the trace decomposes around that
adjacent mkdir-clone pair. -/
theorem sync_path_depends_only_on_existence (a : RunArgs) (w : World) (root work : String) :
    (w.wsExists = true →
      (∀ bb s d, Event.git none ["clone", s, d] bb ∉ (run a w root work).trace) ∧
      ((run a w root work).result = .ok () →
        Event.git (some work) ["fetch", FERSK_ORIGIN] a.jsonOut ∈ (run a w root work).trace)) ∧
    (w.wsExists = false →
      ((syncStep ⟨a.jsonOut⟩ w root work).events = [Event.mkdir work] ∨
       (syncStep ⟨a.jsonOut⟩ w root work).events =
         [Event.mkdir work, Event.git none ["clone", root, work] a.jsonOut]) ∧
      ((run a w root work).result = .ok () →
        ∃ l1 l2, (run a w root work).trace =
          l1 ++ Event.mkdir work :: Event.git none ["clone", root, work] a.jsonOut :: l2)) := by
  constructor
  · intro hex
    constructor
    · intro bb s d hmem
      have hall : ∀ e ∈ (run a w root work).trace,
          ∀ bb2 s2 d2, e ≠ Event.git none ["clone", s2, d2] bb2 := by
        apply run_trace_all
        · intro e he
          obtain ⟨cwd, ar, rfl⟩ := resolveStep_events_shape a ⟨a.jsonOut⟩ w.env root e he
          intro bb2 s2 d2
          simp
        · intro rev e he
          obtain ⟨str, rfl⟩ := printlnEvents_shape a root work rev e he
          intro bb2 s2 d2
          simp
        · intro e he
          rcases (syncStep_exists_shape ⟨a.jsonOut⟩ w root work hex).1 with hev | hev <;>
            rw [hev] at he <;> simp at he
          · subst he; intro bb2 s2 d2; simp
          · rcases he with rfl | rfl <;> intro bb2 s2 d2 <;> simp
        · intro rem e he
          rcases copyStep_events_shape w a.copyRemote rem root work e he with
            ⟨d2, n2, rfl⟩ | ⟨d2, n2, u2, rfl⟩ <;> intro bb2 s2 d3 <;> simp
        · intro e he
          rcases cleanse_events_shape ⟨a.jsonOut⟩ w.env work e he with rfl | rfl <;>
            intro bb2 s2 d2 <;> simp
        · intro ref e he
          rw [checkout_events] at he
          simp at he
          subst he
          intro bb2 s2 d2
          simp
        · intro bb2 s2 d2
          simp
        · intro q e he
          have := (jsonEvents_shape a root work q e he).1
          subst this
          intro bb2 s2 d2
          simp
      exact hall _ hmem bb s d rfl
    · intro h
      obtain ⟨rev, cEvs, remotes2, hres, hsync, hcopy, hclean, hco, hcmd, hrun⟩ :=
        run_ok_struct a w root work h
      have hev := ((syncStep_exists_shape ⟨a.jsonOut⟩ w root work hex).2 hsync).1
      rw [hrun]
      simp only [List.mem_append, hev]
      simp
  · intro hex
    constructor
    · exact (syncStep_clone_shape ⟨a.jsonOut⟩ w root work hex).1
    · intro h
      obtain ⟨rev, cEvs, remotes2, hres, hsync, hcopy, hclean, hco, hcmd, hrun⟩ :=
        run_ok_struct a w root work h
      have hev := ((syncStep_clone_shape ⟨a.jsonOut⟩ w root work hex).2 hsync).1
      rw [hrun]
      simp only [hev]
      refine ⟨(resolveStep a ⟨a.jsonOut⟩ w.env root).2 ++ printlnEvents a root work rev,
        cEvs ++ (Git.cleanse ⟨a.jsonOut⟩ w.env work).2
          ++ (Git.checkout ⟨a.jsonOut⟩ w.env work (qualifyRev rev).asRef).2
          ++ [Event.userCmd work a.args a.jsonOut]
          ++ jsonEvents a root work (qualifyRev rev), ?_⟩
      simp

/-- Witness for C10: with an existing workspace a successful run fetched and
performed no clone; on a fresh workspace the mkdir directly precedes the
clone. -/
theorem sync_path_depends_only_on_existence_witness :
    Event.git (some "/wrk") ["fetch", FERSK_ORIGIN] false ∈
      (run ⟨some "main", none, none, ["make"], false⟩ happyWorld "/src" "/wrk").trace ∧
    (Event.git none ["clone", "/src", "/wrk"] false ∉
      (run ⟨some "main", none, none, ["make"], false⟩ happyWorld "/src" "/wrk").trace) ∧
    (∃ l1 l2,
      (run ⟨some "main", none, none, ["make"], false⟩
          { happyWorld with wsExists := false, wsRemotes := [] } "/src" "/wrk").trace =
        l1 ++ Event.mkdir "/wrk" :: Event.git none ["clone", "/src", "/wrk"] false :: l2) := by
  refine ⟨?_, ?_, ?_⟩
  · exact ((sync_path_depends_only_on_existence ⟨some "main", none, none, ["make"], false⟩
      happyWorld "/src" "/wrk").1 rfl).2 rfl
  · exact ((sync_path_depends_only_on_existence ⟨some "main", none, none, ["make"], false⟩
      happyWorld "/src" "/wrk").1 rfl).1 false "/src" "/wrk"
  · exact ((sync_path_depends_only_on_existence ⟨some "main", none, none, ["make"], false⟩
      { happyWorld with wsExists := false, wsRemotes := [] } "/src" "/wrk").2 rfl).2 rfl

/-- C9: after a successful run the workspace directory exists, so a second
run with the same inputs against an unchanged source repository (same engine
behaviour, the world updated only with the first run's resulting workspace
state) takes the fetch path — its trace contains the fetch and no clone — and
when it succeeds it checks out exactly the same ref as the first run. -/
theorem second_run_fetches_and_same_checkout (a : RunArgs) (w w2 : World)
    (root work : String)
    (hw2 : w2 = { w with wsExists := (run a w root work).wsExists,
                         wsRemotes := (run a w root work).wsRemotes })
    (h1 : (run a w root work).result = .ok ())
    (h2 : (run a w2 root work).result = .ok ()) :
    (run a w root work).wsExists = true ∧
    (run a w2 root work).checkedOut = (run a w root work).checkedOut ∧
    (run a w root work).checkedOut ≠ none ∧
    Event.git (some work) ["fetch", FERSK_ORIGIN] a.jsonOut ∈ (run a w2 root work).trace ∧
    (∀ bb s d, Event.git none ["clone", s, d] bb ∉ (run a w2 root work).trace) := by
  obtain ⟨rev, cEvs, remotes2, hres, hsync, hcopy, hclean, hco, hcmd, hrun⟩ :=
    run_ok_struct a w root work h1
  obtain ⟨rev2, cEvs2, remotes2b, hres2, hsync2, hcopy2, hclean2, hco2, hcmd2, hrun2⟩ :=
    run_ok_struct a w2 root work h2
  have hexists : (run a w root work).wsExists = true := by
    rw [hrun]
    exact syncStep_ok_wsExists ⟨a.jsonOut⟩ w root work hsync
  have hw2ex : w2.wsExists = true := by rw [hw2]; exact hexists
  have henv : w2.env = w.env := by rw [hw2]
  have hrevs : rev2 = rev := by
    rw [henv] at hres2
    rw [hres] at hres2
    exact (Except.ok.inj hres2).symm
  refine ⟨hexists, ?_, ?_, ?_, ?_⟩
  · rw [hrun, hrun2, hrevs]
  · rw [hrun]; simp
  · have hev := ((syncStep_exists_shape ⟨a.jsonOut⟩ w2 root work hw2ex).2 hsync2).1
    rw [hrun2]
    simp only [List.mem_append, hev]
    simp
  · intro bb s d hmem
    have hall : ∀ e ∈ (run a w2 root work).trace,
        ∀ bb2 s2 d2, e ≠ Event.git none ["clone", s2, d2] bb2 := by
      apply run_trace_all
      · intro e he
        obtain ⟨cwd, ar, rfl⟩ := resolveStep_events_shape a ⟨a.jsonOut⟩ w2.env root e he
        intro bb2 s2 d2
        simp
      · intro r e he
        obtain ⟨str, rfl⟩ := printlnEvents_shape a root work r e he
        intro bb2 s2 d2
        simp
      · intro e he
        rcases (syncStep_exists_shape ⟨a.jsonOut⟩ w2 root work hw2ex).1 with hev | hev <;>
          rw [hev] at he <;> simp at he
        · subst he; intro bb2 s2 d2; simp
        · rcases he with rfl | rfl <;> intro bb2 s2 d2 <;> simp
      · intro rem e he
        rcases copyStep_events_shape w2 a.copyRemote rem root work e he with
          ⟨d2, n2, rfl⟩ | ⟨d2, n2, u2, rfl⟩ <;> intro bb2 s2 d3 <;> simp
      · intro e he
        rcases cleanse_events_shape ⟨a.jsonOut⟩ w2.env work e he with rfl | rfl <;>
          intro bb2 s2 d2 <;> simp
      · intro ref e he
        rw [checkout_events] at he
        simp at he
        subst he
        intro bb2 s2 d2
        simp
      · intro bb2 s2 d2
        simp
      · intro q e he
        have := (jsonEvents_shape a root work q e he).1
        subst this
        intro bb2 s2 d2
        simp
    exact hall _ hmem bb s d rfl

/-- A fresh-workspace variant of the happy world. -/
def freshWorld : World :=
  { happyWorld with wsExists := false, wsRemotes := [] }

/-- The run arguments used by several concrete witnesses: branch "main",
command `make`, human-readable output. -/
def mainArgs : RunArgs :=
  ⟨some "main", none, none, ["make"], false⟩

/-- The world as left behind by a first fresh run of `mainArgs`. -/
def secondWorld : World :=
  { freshWorld with
      wsExists := (run mainArgs freshWorld "/src" "/wrk").wsExists,
      wsRemotes := (run mainArgs freshWorld "/src" "/wrk").wsRemotes }

/-- Witness for C9: a fresh first run followed by a second run against the
unchanged world fetches and reaches the same checked-out ref. -/
theorem second_run_fetches_and_same_checkout_witness :
    (run mainArgs secondWorld "/src" "/wrk").checkedOut =
      (run mainArgs freshWorld "/src" "/wrk").checkedOut ∧
    Event.git (some "/wrk") ["fetch", FERSK_ORIGIN] false ∈
      (run mainArgs secondWorld "/src" "/wrk").trace := by
  have h := second_run_fetches_and_same_checkout mainArgs freshWorld secondWorld
    "/src" "/wrk" rfl rfl rfl
  exact ⟨h.2.1, h.2.2.2.1⟩

/-- True when an engine invocation's argument vector does not contain the
`--origin` option (non-engine events hold vacuously). -/
def noOriginFlag : Event → Bool
  | .git _ ar _ => !(ar.contains "--origin")
  | .gitOut _ ar => !(ar.contains "--origin")
  | _ => true

/-- C1 (code bug): on a fresh-workspace run the clone is invoked as plain
`git clone <src> <dst>`: `Git::clone` as defined in `src/git.rs` accepts no
remote-name parameter and passes no `--origin` option, even though
`src/main.rs` line 140 passes `Some(FERSK_ORIGIN)` as a third argument
(which that signature cannot accept).  Consequently no engine invocation of
the run carries `--origin`, the fresh clone's remote is git's default
"origin" pointing at the source, and no remote named by the reserved constant
exists in the fresh workspace. -/
theorem clone_drops_reserved_remote_name :
    (run mainArgs freshWorld "/src" "/wrk").result = .ok () ∧
    Event.git none ["clone", "/src", "/wrk"] false ∈
      (run mainArgs freshWorld "/src" "/wrk").trace ∧
    ((run mainArgs freshWorld "/src" "/wrk").trace.all noOriginFlag) = true ∧
    lookupRemote (run mainArgs freshWorld "/src" "/wrk").wsRemotes FERSK_ORIGIN = none ∧
    lookupRemote (run mainArgs freshWorld "/src" "/wrk").wsRemotes "origin" = some "/src" := by
  refine ⟨rfl, by decide, by decide, rfl, rfl⟩

/-- True for every event that is not a force-set of the reserved remote. -/
def noFerskForce : Event → Bool
  | .forceRemoteUrl _ n _ => !(n == FERSK_ORIGIN)
  | _ => true

/-- The run arguments of the copy-remote collision: the user supplies the
reserved name itself as the copy-remote. -/
def collideArgs : RunArgs :=
  ⟨some "main", none, some "fersk-origin", ["make"], false⟩

/-- A world whose source repository has a remote that happens to be named
like the reserved remote, pointing elsewhere. -/
def collideWorld : World :=
  { happyWorld with sourceRemotes := [("fersk-origin", "https://example.com/other.git")] }

/-- C6 is false as stated, on two counts.  First, the copy-remote name is not
validated against the reserved name: a successful run with
`--copy-remote fersk-origin` re-asserts the reserved remote to the source
root and then a later step of the same run force-sets it to the source's
identically named remote URL, so at the end it no longer points at the
canonical source root.  Second, on a fresh-workspace invocation the URL is
not re-asserted at all (no reserved-remote force-set event occurs), and —
with `Git::clone` as written — the reserved remote does not even exist
afterwards. -/
theorem fersk_remote_invariant_counterexample :
    ((run collideArgs collideWorld "/src" "/wrk").result = .ok () ∧
     Event.forceRemoteUrl "/wrk" FERSK_ORIGIN "/src" ∈
       (run collideArgs collideWorld "/src" "/wrk").trace ∧
     lookupRemote (run collideArgs collideWorld "/src" "/wrk").wsRemotes FERSK_ORIGIN =
       some "https://example.com/other.git" ∧
     ("https://example.com/other.git" : String) ≠ "/src") ∧
    ((run mainArgs freshWorld "/src" "/wrk").result = .ok () ∧
     ((run mainArgs freshWorld "/src" "/wrk").trace.all noFerskForce) = true ∧
     lookupRemote (run mainArgs freshWorld "/src" "/wrk").wsRemotes FERSK_ORIGIN = none) := by
  refine ⟨⟨rfl, by decide, rfl, by decide⟩, ⟨rfl, by decide, rfl⟩⟩

/-- C6 (amended): on every invocation where the workspace directory already
exists and any supplied copy-remote name differs from the reserved remote
name, a successful run force-updates the reserved remote to the canonical
source root and at the end of the run it still points there. -/
theorem fersk_remote_invariant_amended (a : RunArgs) (w : World) (root work : String)
    (hex : w.wsExists = true)
    (hcr : ∀ r, a.copyRemote = some r → r ≠ FERSK_ORIGIN)
    (h : (run a w root work).result = .ok ()) :
    Event.forceRemoteUrl work FERSK_ORIGIN root ∈ (run a w root work).trace ∧
    lookupRemote (run a w root work).wsRemotes FERSK_ORIGIN = some root := by
  obtain ⟨rev, cEvs, remotes2, hres, hsync, hcopy, hclean, hco, hcmd, hrun⟩ :=
    run_ok_struct a w root work h
  have hshape := (syncStep_exists_shape ⟨a.jsonOut⟩ w root work hex).2 hsync
  constructor
  · rw [hrun]
    simp only [List.mem_append, hshape.1]
    simp
  · have hrem2 : (copyStep w a.copyRemote
        (syncStep ⟨a.jsonOut⟩ w root work).remotes root work).2.2 = remotes2 := by
      rw [hcopy]
    have hsyncrem : lookupRemote (syncStep ⟨a.jsonOut⟩ w root work).remotes FERSK_ORIGIN =
        some root := by
      rw [hshape.2]
      exact lookup_setRemote_self w.wsRemotes FERSK_ORIGIN root
    rw [hrun]
    simp only
    cases hc : a.copyRemote with
    | none =>
      rw [hc] at hrem2
      rw [copyStep_none] at hrem2
      rw [← hrem2]
      exact hsyncrem
    | some r =>
      rw [hc] at hrem2
      rw [← hrem2]
      rw [copyStep_preserves_other w r _ root work FERSK_ORIGIN (Ne.symm (hcr r hc))]
      exact hsyncrem

/-- Witness for C6's amended statement: a concrete successful run on an
existing workspace with no copy-remote leaves the reserved remote pointing at
the source root. -/
theorem fersk_remote_invariant_amended_witness :
    lookupRemote (run mainArgs happyWorld "/src" "/wrk").wsRemotes FERSK_ORIGIN =
      some "/src" := by
  have h := fersk_remote_invariant_amended mainArgs happyWorld "/src" "/wrk" rfl
    (fun r hr => by simp [mainArgs] at hr) rfl
  exact h.2

/-- C7: in machine-readable mode (`json_out`), the only standard-output
content of a successful run is the single structured record (source
repository path, working repository path, resolved revision descriptor) — the
human-readable progress lines are suppressed and every child process's stdout
is nulled or captured — and on any failure nothing at all is written to
standard output (the structured payload is success-only). -/
theorem json_output_success_only (a : RunArgs) (w : World) (root work : String)
    (hj : a.jsonOut = true) :
    ((run a w root work).result = .ok () →
      ∃ rev, (run a w root work).resolvedRev = some rev ∧
        stdoutEvents (run a w root work).trace =
          [Event.stdoutJson root work (qualifyRev rev).display]) ∧
    (∀ er, (run a w root work).result = .error er →
      stdoutEvents (run a w root work).trace = []) ∧
    (∀ e ∈ (run a w root work).trace, childStdoutSuppressed e = true) := by
  refine ⟨?_, ?_, ?_⟩
  · intro h
    obtain ⟨rev, cEvs, remotes2, hres, hsync, hcopy, hclean, hco, hcmd, hrun⟩ :=
      run_ok_struct a w root work h
    refine ⟨rev, by rw [hrun], ?_⟩
    have f1 : (resolveStep a ⟨a.jsonOut⟩ w.env root).2.filter isStdoutEvent = [] := by
      rw [List.filter_eq_nil_iff]
      intro e he
      obtain ⟨cwd, ar, rfl⟩ := resolveStep_events_shape a ⟨a.jsonOut⟩ w.env root e he
      simp [isStdoutEvent]
    have f2 : (printlnEvents a root work rev).filter isStdoutEvent = [] := by
      simp [printlnEvents, hj]
    have f3 : (syncStep ⟨a.jsonOut⟩ w root work).events.filter isStdoutEvent = [] := by
      rw [List.filter_eq_nil_iff]
      intro e he
      rcases syncStep_events_all ⟨a.jsonOut⟩ w root work e he with rfl | rfl | rfl | rfl <;>
        simp [isStdoutEvent]
    have f4 : cEvs.filter isStdoutEvent = [] := by
      have hcEvs : (copyStep w a.copyRemote
          (syncStep ⟨a.jsonOut⟩ w root work).remotes root work).2.1 = cEvs := by
        rw [hcopy]
      rw [← hcEvs, List.filter_eq_nil_iff]
      intro e he
      rcases copyStep_events_shape w a.copyRemote _ root work e he with
        ⟨d2, n2, rfl⟩ | ⟨d2, n2, u2, rfl⟩ <;> simp [isStdoutEvent]
    have f5 : (Git.cleanse ⟨a.jsonOut⟩ w.env work).2.filter isStdoutEvent = [] := by
      rw [List.filter_eq_nil_iff]
      intro e he
      rcases cleanse_events_shape ⟨a.jsonOut⟩ w.env work e he with rfl | rfl <;>
        simp [isStdoutEvent]
    have f6 : (Git.checkout ⟨a.jsonOut⟩ w.env work (qualifyRev rev).asRef).2.filter
        isStdoutEvent = [] := by
      rw [checkout_events]
      simp [isStdoutEvent]
    rw [hrun]
    simp only [stdoutEvents, List.filter_append, f1, f2, f3, f4, f5, f6]
    simp [jsonEvents, hj, isStdoutEvent]
  · intro er her
    have hnojson : ∀ x y z, Event.stdoutJson x y z ∉ (run a w root work).trace := by
      intro x y z hmem
      have := (run_json_only_on_success a w root work x y z hmem).1
      rw [her] at this
      simp at this
    have hstd : ∀ e ∈ (run a w root work).trace,
        isStdoutEvent e = true → ∃ x y z, e = Event.stdoutJson x y z := by
      apply run_trace_all
      · intro e he
        obtain ⟨cwd, ar, rfl⟩ := resolveStep_events_shape a ⟨a.jsonOut⟩ w.env root e he
        simp [isStdoutEvent]
      · intro rev e he
        rw [printlnEvents, hj] at he
        simp at he
      · intro e he
        rcases syncStep_events_all ⟨a.jsonOut⟩ w root work e he with rfl | rfl | rfl | rfl <;>
          simp [isStdoutEvent]
      · intro rem e he
        rcases copyStep_events_shape w a.copyRemote rem root work e he with
          ⟨d2, n2, rfl⟩ | ⟨d2, n2, u2, rfl⟩ <;> simp [isStdoutEvent]
      · intro e he
        rcases cleanse_events_shape ⟨a.jsonOut⟩ w.env work e he with rfl | rfl <;>
          simp [isStdoutEvent]
      · intro ref e he
        rw [checkout_events] at he
        simp at he
        subst he
        simp [isStdoutEvent]
      · simp [isStdoutEvent]
      · intro q e he
        obtain ⟨rfl, hjq⟩ := jsonEvents_shape a root work q e he
        intro _
        exact ⟨root, work, q.display, rfl⟩
    rw [stdoutEvents, List.filter_eq_nil_iff]
    intro e he hp
    obtain ⟨x, y, z, rfl⟩ := hstd e he hp
    exact hnojson x y z he
  · apply run_trace_all
    · intro e he
      obtain ⟨cwd, ar, rfl⟩ := resolveStep_events_shape a ⟨a.jsonOut⟩ w.env root e he
      simp [childStdoutSuppressed]
    · intro rev e he
      obtain ⟨str, rfl⟩ := printlnEvents_shape a root work rev e he
      simp [childStdoutSuppressed]
    · intro e he
      rcases syncStep_events_all ⟨a.jsonOut⟩ w root work e he with rfl | rfl | rfl | rfl <;>
        simp [childStdoutSuppressed, hj]
    · intro rem e he
      rcases copyStep_events_shape w a.copyRemote rem root work e he with
        ⟨d2, n2, rfl⟩ | ⟨d2, n2, u2, rfl⟩ <;> simp [childStdoutSuppressed]
    · intro e he
      rcases cleanse_events_shape ⟨a.jsonOut⟩ w.env work e he with rfl | rfl <;>
        simp [childStdoutSuppressed, hj]
    · intro ref e he
      rw [checkout_events] at he
      simp at he
      subst he
      simp [childStdoutSuppressed, hj]
    · simp [childStdoutSuppressed, hj]
    · intro q e he
      obtain ⟨rfl, hjq⟩ := jsonEvents_shape a root work q e he
      simp [childStdoutSuppressed]

/-- The run arguments of the json-mode witnesses. -/
def jsonArgs : RunArgs :=
  ⟨some "main", none, none, ["make"], true⟩

/-- Witness for C7: a concrete successful json-mode run's sole stdout content
is the structured record, and a concrete failing json-mode run (lock
contended) writes nothing to stdout. -/
theorem json_output_success_only_witness :
    stdoutEvents (run jsonArgs happyWorld "/src" "/wrk").trace =
      [Event.stdoutJson "/src" "/wrk" "fersk-origin/main"] ∧
    stdoutEvents (run jsonArgs { happyWorld with lockOk := false } "/src" "/wrk").trace = [] := by
  constructor
  · obtain ⟨rev, hrev, hstd⟩ :=
      (json_output_success_only jsonArgs happyWorld "/src" "/wrk" rfl).1 rfl
    have : rev = GitRev.Branch "main" := by
      have : (run jsonArgs happyWorld "/src" "/wrk").resolvedRev =
          some (GitRev.Branch "main") := by rfl
      rw [this] at hrev
      exact (Option.some_inj.1 hrev).symm
    rw [this] at hstd
    exact hstd
  · exact (json_output_success_only jsonArgs { happyWorld with lockOk := false }
      "/src" "/wrk" rfl).2.1 .lockContended rfl

/-- C8: lock acquisition succeeds exactly when the lock file is absent or
names a process that is no longer alive, and fails when it names a live
process; hence, starting from an absent or stale lock, of two live processes
attempting acquisition one after the other (the filesystem-level
create-or-fail primitive is atomic, so concurrent attempts serialize),
exactly the first succeeds and the second fails with contention — two
processes never simultaneously hold the lock for one workspace. -/
theorem pidlock_mutual_exclusion (alive : Nat → Bool) (st : Option Nat) (p1 p2 : Nat)
    (h1 : alive p1 = true) (_h2 : alive p2 = true) :
    ((PidLock.acquire alive st p1).1 = true ↔ (∀ q, st = some q → alive q = false)) ∧
    ((PidLock.acquire alive st p1).1 = true →
      (PidLock.acquire alive (PidLock.acquire alive st p1).2 p2).1 = false) ∧
    ((∀ q, st = some q → alive q = false) →
      ((PidLock.acquire alive st p1).1 = true ∧
       (PidLock.acquire alive (PidLock.acquire alive st p1).2 p2).1 = false)) := by
  refine ⟨?_, ?_, ?_⟩
  · cases st with
    | none => simp [PidLock.acquire]
    | some q =>
      by_cases hq : alive q = true <;> simp_all [PidLock.acquire]
  · intro hacq
    cases st with
    | none => simp [PidLock.acquire, h1]
    | some q =>
      by_cases hq : alive q = true <;> simp_all [PidLock.acquire]
  · intro hstale
    cases st with
    | none => simp [PidLock.acquire, h1]
    | some q =>
      have hq := hstale q rfl
      simp [PidLock.acquire, hq, h1]

/-- Witness for C8: with both processes alive and the lock file absent, the
first acquisition succeeds and the second fails. -/
theorem pidlock_mutual_exclusion_witness :
    (PidLock.acquire (fun _ => true) none 1).1 = true ∧
    (PidLock.acquire (fun _ => true) (PidLock.acquire (fun _ => true) none 1).2 2).1 = false := by
  exact (pidlock_mutual_exclusion (fun _ => true) none 1 2 rfl rfl).2.2
    (fun q hq => by simp at hq)
